import Mathlib

/-!
Verification of the pi session reader (scripts/read_session.py).

The development shallowly embeds the script: JSON values are modelled by an
inductive type (numbers as rationals), one input line is either blank, a
valid JSON value, or malformed (the outcome of json.loads on that line),
and each report view is modelled as a function from the parsed state to a
list of structured display blocks.  Python string slicing and length are
over code points, which matches String.length and taking a prefix of the
character list.  Where the script would raise a TypeError on a value of an
unexpected shape (for example calling a string method on a number), the
model returns the lookup default instead; no theorem below exercises such
inputs.
-/

/-- A JSON value, as produced by json.loads; numbers are modelled as
rationals. -/
inductive JSON where
  | null
  | bool (b : Bool)
  | num (q : ℚ)
  | str (s : String)
  | arr (items : List JSON)
  | obj (fields : List (String × JSON))

namespace JSON

/-- Equality test against a string literal; every comparison the script
makes on a JSON value is of this form. -/
def isStr (j : JSON) (s : String) : Bool :=
  match j with
  | .str t => t == s
  | _ => false

/-- Dictionary lookup with default, as dict.get(key, default): the value
stored for the key (a json.loads dict keeps the last duplicate), or the
default when the key is missing or the value is not a dict. -/
def getD (j : JSON) (key : String) (d : JSON) : JSON :=
  match j with
  | .obj fields =>
    match fields.reverse.find? (fun p => p.1 == key) with
    | some p => p.2
    | none => d
  | _ => d

/-- Python truthiness of a JSON value. -/
def truthy : JSON → Bool
  | .null => false
  | .bool b => b
  | .num q => q != 0
  | .str s => s != ""
  | .arr items => !items.isEmpty
  | .obj fields => !fields.isEmpty

/-- The string payload, or a default when the value is not a string. -/
def strD (j : JSON) (d : String) : String :=
  match j with
  | .str s => s
  | _ => d

/-- The numeric payload, or a default when the value is not a number. -/
def numD (j : JSON) (d : ℚ) : ℚ :=
  match j with
  | .num q => q
  | _ => d

/-- String-valued dictionary lookup with default. -/
def getStr (j : JSON) (key : String) (d : String) : String :=
  (j.getD key (JSON.str d)).strD d

/-- Number-valued dictionary lookup with default. -/
def getNum (j : JSON) (key : String) (d : ℚ) : ℚ :=
  (j.getD key (JSON.num d)).numD d

/-- The element list of an array value, an empty list otherwise. -/
def arrItems : JSON → List JSON
  | .arr items => items
  | _ => []

/-- Whether the value is a dict. -/
def isObj : JSON → Bool
  | .obj _ => true
  | _ => false

end JSON

/-- Python slicing text[:n] over code points. -/
def pyTake (s : String) (n : Nat) : String :=
  String.mk (s.data.take n)

/-- Whether a string consists only of whitespace, so that its stripped
form is falsy in Python: the test the script applies to decide that a
text block is blank. -/
def isBlankStr (s : String) : Bool :=
  s.data.all Char.isWhitespace

/-- The marker appended to a cut text block, naming the original length. -/
def truncMarker (n : Nat) : String :=
  "\n... [truncated, " ++ toString n ++ " chars total]"

/-- truncate from read_session.py: identity when the limit is nonpositive
or the text fits, otherwise the first max_len code points followed by the
marker. -/
def truncate (text : String) (max_len : Int) : String :=
  if max_len ≤ 0 ∨ (text.length : Int) ≤ max_len then text
  else pyTake text max_len.toNat ++ truncMarker text.length

/-- One input line after line.strip() and json.loads: blank (skipped),
a valid JSON value, or a line json.loads rejects. -/
inductive RawLine where
  | blank
  | valid (j : JSON)
  | malformed

/-- The state built up by the parse loop. -/
structure ParseState where
  metadata : JSON
  events : List JSON
  messages : List JSON

/-- One iteration of the parse loop of parse_session: classify the line by
its type tag; a malformed line raises (propagated as an error). -/
def parseStep (st : ParseState) (l : RawLine) : Except Unit ParseState :=
  match l with
  | .blank => .ok st
  | .malformed => .error ()
  | .valid obj =>
    let t := obj.getD "type" JSON.null
    if t.isStr "session" then .ok { st with metadata := obj }
    else if t.isStr "model_change" || t.isStr "thinking_level_change" then
      .ok { st with events := st.events ++ [obj] }
    else if t.isStr "message" then .ok { st with messages := st.messages ++ [obj] }
    else .ok st

/-- parse_session from read_session.py, over the already-split lines:
returns (metadata, events, messages) or fails on the first malformed
line. -/
def parse_session (lines : List RawLine) : Except Unit (JSON × List JSON × List JSON) :=
  (lines.foldlM parseStep ⟨JSON.obj [], [], []⟩).map fun st =>
    (st.metadata, st.events, st.messages)

/-- A normalized tool call extracted from a content item. -/
structure ToolCall where
  id : JSON
  name : JSON
  arguments : JSON

/-- Text segments of a generic message content value: a non-blank string
is one segment; in a list, each dict item of type text with non-blank text
contributes its text. -/
def genericTexts (content : JSON) : List String :=
  match content with
  | .str s => if !isBlankStr s then [s] else []
  | .arr items =>
    items.filterMap fun item =>
      if item.isObj && (item.getStr "type" "" == "text") then
        let t := item.getStr "text" ""
        if !isBlankStr t then some t else none
      else none
  | _ => []

/-- Tool calls of a generic message content value: each dict item of type
toolCall contributes id, name and arguments (with defaults). -/
def genericToolCalls (content : JSON) : List ToolCall :=
  match content with
  | .arr items =>
    items.filterMap fun item =>
      if item.isObj && (item.getStr "type" "" == "toolCall") then
        some ⟨item.getD "id" (JSON.str ""), item.getD "name" (JSON.str ""),
              item.getD "arguments" (JSON.obj [])⟩
      else none
  | _ => []

/-- Thinking segments of a generic message content value: each dict item
of type thinking with nonempty thinking text contributes it. -/
def genericThinking (content : JSON) : List String :=
  match content with
  | .arr items =>
    items.filterMap fun item =>
      if item.isObj && (item.getStr "type" "" == "thinking") then
        let t := item.getStr "thinking" ""
        if t ≠ "" then some t else none
      else none
  | _ => []

/-- Text segments of a toolResult content value: in a list, every dict
item of type text contributes its text (defaulting to empty, with no
blank check); a string contributes itself when non-blank. -/
def toolResultTexts (result_content : JSON) : List String :=
  match result_content with
  | .arr items =>
    items.filterMap fun item =>
      if item.isObj && (item.getD "type" JSON.null).isStr "text" then
        some (item.getStr "text" "")
      else none
  | .str s => if !isBlankStr s then [s] else []
  | _ => []

/-- extract_subagent_details from read_session.py: the details field of a
toolResult message whose tool name is subagent, when truthy. -/
def extract_subagent_details (msg : JSON) : Option JSON :=
  if !(msg.getD "role" JSON.null).isStr "toolResult"
      || !(msg.getD "toolName" JSON.null).isStr "subagent" then none
  else
    let details := msg.getD "details" JSON.null
    if details.truthy then some details else none

/-- The inner message dict of a raw message entry. -/
def msgOf (entry : JSON) : JSON :=
  entry.getD "message" (JSON.obj [])

/-- The inner role of a raw message entry, with the same defaults the
normalizer applies. -/
def roleOfEntry (e : JSON) : JSON :=
  (msgOf e).getD "role" (JSON.str "")

/-- A normalized turn, as the dict built per message by extract_turns;
fields the script adds only conditionally are options. -/
structure Turn where
  role : JSON
  timestamp : JSON
  texts : List String
  tool_calls : List ToolCall
  thinking : List String
  is_error : JSON
  model : Option JSON := none
  provider : Option JSON := none
  usage : Option JSON := none
  stop_reason : Option JSON := none
  tool_call_id : Option JSON := none
  tool_name : Option JSON := none
  subagent_details : Option JSON := none

/-- The unconditional fields of the turn dict built for one raw message
entry: role, timestamp (falling back to the inner timestamp) and the
generic content extraction. -/
def baseTurn (entry : JSON) : Turn :=
  { role := roleOfEntry entry
    timestamp := entry.getD "timestamp" ((msgOf entry).getD "timestamp" (JSON.str ""))
    texts := genericTexts ((msgOf entry).getD "content" (JSON.str ""))
    tool_calls := genericToolCalls ((msgOf entry).getD "content" (JSON.str ""))
    thinking := genericThinking ((msgOf entry).getD "content" (JSON.str ""))
    is_error := (msgOf entry).getD "isError" (JSON.bool false) }

/-- The assistant enrichment of extract_turns: model, provider, usage and
stop reason are recorded only for an assistant role with truthy usage. -/
def withUsageTurn (entry : JSON) : Turn :=
  if (roleOfEntry entry).isStr "assistant" then
    if ((msgOf entry).getD "usage" (JSON.obj [])).truthy then
      { baseTurn entry with
          model := some ((msgOf entry).getD "model" (JSON.str ""))
          provider := some ((msgOf entry).getD "provider" (JSON.str ""))
          usage := some ((msgOf entry).getD "usage" (JSON.obj []))
          stop_reason := some ((msgOf entry).getD "stopReason" (JSON.str "")) }
    else baseTurn entry
  else baseTurn entry

/-- The turn built from one raw message entry, following the loop body of
extract_turns: for a toolResult role the text segments are replaced by
the toolResult extraction and the tool fields and subagent details are
recorded. -/
def turnOfEntry (entry : JSON) : Turn :=
  if (roleOfEntry entry).isStr "toolResult" then
    { withUsageTurn entry with
        tool_call_id := some ((msgOf entry).getD "toolCallId" (JSON.str ""))
        tool_name := some ((msgOf entry).getD "toolName" (JSON.str ""))
        texts := toolResultTexts ((msgOf entry).getD "content" (JSON.str ""))
        subagent_details := extract_subagent_details (msgOf entry) }
  else withUsageTurn entry

/-- extract_turns from read_session.py: one turn per raw message entry,
in order. -/
def extract_turns (messages : List JSON) : List Turn :=
  messages.map turnOfEntry

/-- The command-line values each renderer receives. -/
structure Args where
  offset : Int
  limit : Int
  max_content : Int

/-- How much a turn advances the 1-based user-turn counter: one for a
user turn, zero otherwise. -/
def userStep (t : Turn) : Int :=
  if t.role.isStr "user" then 1 else 0

/-- Each turn paired with the user-turn counter value in force when the
renderers test it against the window (for a user turn, its own new
number; for any other turn, the number of the last preceding user turn). -/
def assignNumsFrom (n : Int) : List Turn → List (Int × Turn)
  | [] => []
  | t :: rest =>
    let n2 := n + userStep t
    (n2, t) :: assignNumsFrom n2 rest

/-- assignNumsFrom starting from counter zero, as every renderer does. -/
def assignNums (turns : List Turn) : List (Int × Turn) :=
  assignNumsFrom 0 turns

/-- The window test every renderer applies: not skipped by the offset
check and not cut by the limit check. -/
def shown (off lim n : Int) : Bool :=
  if off ≠ 0 ∧ n ≤ off then false
  else if lim ≠ 0 ∧ off + lim < n then false
  else true

/-- The shared renderer loop shape: walk the turns with the user-turn
counter, and for each turn the view displays, skip it while the counter
is at most the offset, stop the whole loop once the counter passes
offset + limit, and otherwise emit a display block. -/
def rendererLoop (off lim : Int) (elig : Turn → Bool) (emit : Int → Turn → α) :
    Int → List Turn → List α
  | _, [] => []
  | n, t :: rest =>
    let n2 := n + userStep t
    if elig t then
      if off ≠ 0 ∧ n2 ≤ off then rendererLoop off lim elig emit n2 rest
      else if lim ≠ 0 ∧ off + lim < n2 then []
      else emit n2 t :: rendererLoop off lim elig emit n2 rest
    else rendererLoop off lim elig emit n2 rest

/-- Joining text segments with spaces, as " ".join(texts). -/
def joinSp (texts : List String) : String :=
  String.intercalate " " texts

/-- The per-turn session cost the overview accumulates: the total field
of the cost mapping of the usage of the turn, with defaults. -/
def turnCostTotal (t : Turn) : ℚ :=
  ((t.usage.getD (JSON.obj [])).getD "cost" (JSON.obj [])).getNum "total" 0

/-- The cost field of one subagent run result. -/
def subResultCost (r : JSON) : ℚ :=
  (r.getD "usage" (JSON.obj [])).getNum "cost" 0

/-- The run results list of a subagent details value. -/
def subResults (details : JSON) : List JSON :=
  (details.getD "results" (JSON.arr [])).arrItems

/-- One line of the overview turn summary. -/
inductive OverviewLine where
  | user (n : Int) (texts : List String)
  | assistant (texts : List String) (toolNames : List JSON) (costTotal : ℚ)
  | subagentResult (details : JSON)
  | toolResult (toolName : JSON) (isError : Bool) (texts : List String)

/-- Which turns the overview summary displays: user, assistant and
toolResult turns. -/
def eligOverview (t : Turn) : Bool :=
  t.role.isStr "user" || t.role.isStr "assistant" || t.role.isStr "toolResult"

/-- The overview summary line for one displayed turn. -/
def emitOverview (n : Int) (t : Turn) : OverviewLine :=
  if t.role.isStr "user" then .user n t.texts
  else if t.role.isStr "assistant" then
    .assistant t.texts (t.tool_calls.map (·.name)) (turnCostTotal t)
  else
    match t.subagent_details with
    | some d => .subagentResult d
    | none => .toolResult (t.tool_name.getD (JSON.str "?")) t.is_error.truthy t.texts

/-- The structured output of print_overview: the aggregate numbers it
computes over all turns, and the windowed turn summary. -/
structure OverviewOut where
  sessionCost : ℚ
  subagentCost : ℚ
  totalTurns : Nat
  userTurns : Nat
  assistantTurns : Nat
  toolResultTurns : Nat
  summary : List OverviewLine

/-- print_overview from read_session.py, as structured output: session
cost summed over every turn regardless of window, subagent cost summed
over every subagent run result regardless of window, unwindowed role
counts, and the windowed turn summary. -/
def overviewView (turns : List Turn) (args : Args) : OverviewOut :=
  { sessionCost := (turns.map turnCostTotal).sum
    subagentCost := (turns.map fun t =>
      match t.subagent_details with
      | some d => ((subResults d).map subResultCost).sum
      | none => 0).sum
    totalTurns := turns.length
    userTurns := (turns.filter fun t => t.role.isStr "user").length
    assistantTurns := (turns.filter fun t => t.role.isStr "assistant").length
    toolResultTurns := (turns.filter fun t => t.role.isStr "toolResult").length
    summary := rendererLoop args.offset args.limit eligOverview emitOverview 0 turns }

/-- One block of the conversation view. -/
inductive ConvBlock where
  | user (texts : List String)
  | assistant (texts : List String)
  | subagent (details : JSON)

/-- Which turns the conversation view displays: user turns, assistant
turns with text, and toolResult turns carrying subagent details. -/
def eligConv (t : Turn) : Bool :=
  t.role.isStr "user" || (t.role.isStr "assistant" && !t.texts.isEmpty)
    || (t.role.isStr "toolResult" && t.subagent_details.isSome)

/-- The conversation block for one displayed turn, texts cut to the
configured maximum. -/
def emitConv (mc : Int) (_n : Int) (t : Turn) : ConvBlock :=
  if t.role.isStr "user" then .user (t.texts.map (truncate · mc))
  else if t.role.isStr "assistant" then .assistant (t.texts.map (truncate · mc))
  else .subagent (t.subagent_details.getD JSON.null)

/-- print_conversation from read_session.py, as structured output. -/
def conversationView (turns : List Turn) (args : Args) : List ConvBlock :=
  rendererLoop args.offset args.limit eligConv (emitConv args.max_content) 0 turns

/-- One block of the full view. -/
inductive FullBlock where
  | user (texts : List String)
  | assistant (model : Option JSON) (thinking : List String) (texts : List String)
      (calls : List ToolCall)
  | subagent (details : JSON)
  | result (toolName : JSON) (isError : Bool) (texts : List String)

/-- Which turns the full view displays: user, assistant and toolResult
turns. -/
def eligFull (t : Turn) : Bool :=
  t.role.isStr "user" || t.role.isStr "assistant" || t.role.isStr "toolResult"

/-- The full-view block for one displayed turn, texts cut to the
configured maximum. -/
def emitFull (mc : Int) (_n : Int) (t : Turn) : FullBlock :=
  if t.role.isStr "user" then .user (t.texts.map (truncate · mc))
  else if t.role.isStr "assistant" then
    .assistant t.model (t.thinking.map (truncate · mc)) (t.texts.map (truncate · mc))
      t.tool_calls
  else
    match t.subagent_details with
    | some d => .subagent d
    | none =>
      .result (t.tool_name.getD (JSON.str "?")) t.is_error.truthy
        (t.texts.map (truncate · mc))

/-- print_full from read_session.py, as structured output. -/
def fullView (turns : List Turn) (args : Args) : List FullBlock :=
  rendererLoop args.offset args.limit eligFull (emitFull args.max_content) 0 turns

/-- One block of the tools view. -/
inductive ToolsBlock where
  | calls (cs : List ToolCall)
  | subagent (details : JSON)
  | result (isError : Bool) (text : String)

/-- Which turns the tools view displays: assistant turns with tool calls
and toolResult turns; user turns only advance the counter. -/
def eligTools (t : Turn) : Bool :=
  (t.role.isStr "assistant" && !t.tool_calls.isEmpty) || t.role.isStr "toolResult"

/-- The tools-view block for one displayed turn; a non-subagent result
text is cut to the smaller of the configured maximum and 500. -/
def emitTools (mc : Int) (_n : Int) (t : Turn) : ToolsBlock :=
  if t.role.isStr "assistant" then .calls t.tool_calls
  else
    match t.subagent_details with
    | some d => .subagent d
    | none => .result t.is_error.truthy (truncate (joinSp t.texts) (min mc 500))

/-- print_tools from read_session.py, as structured output. -/
def toolsView (turns : List Turn) (args : Args) : List ToolsBlock :=
  rendererLoop args.offset args.limit eligTools (emitTools args.max_content) 0 turns

/-- Which turns the costs view lists: assistant turns whose usage is
truthy. -/
def eligCosts (t : Turn) : Bool :=
  t.role.isStr "assistant" && (t.usage.getD (JSON.obj [])).truthy

/-- The structured output of print_costs: the windowed per-assistant-turn
cost rows and their accumulated session total, the unwindowed subagent
run rows and their total, and the grand total. -/
structure CostsOut where
  rows : List ℚ
  sessionTotal : ℚ
  subRows : List ℚ
  subagentTotal : ℚ
  grandTotal : ℚ

/-- print_costs from read_session.py, as structured output: the session
total is accumulated only over the displayed rows. -/
def costsView (turns : List Turn) (args : Args) : CostsOut :=
  let rows := rendererLoop args.offset args.limit eligCosts (fun _ t => turnCostTotal t) 0 turns
  let subRows := turns.flatMap fun t =>
    match t.subagent_details with
    | some d => (subResults d).map subResultCost
    | none => []
  { rows := rows
    sessionTotal := rows.sum
    subRows := subRows
    subagentTotal := subRows.sum
    grandTotal := rows.sum + subRows.sum }

/-- The indices the subagents view scans backward from raw message i:
range(i - 1, max(i - 5, -1), -1), that is i - 1 down to max(i - 4, 0). -/
def descWindow (i : Nat) : List Nat :=
  ((List.range i).drop (i - 4)).reverse

/-- The arguments of the first subagent toolCall item in the content list
of one raw message, when there is one. -/
def subagentCallIn (entry : JSON) : Option JSON :=
  let prev_msg := entry.getD "message" (JSON.obj [])
  match prev_msg.getD "content" (JSON.arr []) with
  | .arr items =>
    (items.find? fun item =>
        item.isObj && (item.getD "type" JSON.null).isStr "toolCall"
          && (item.getD "name" JSON.null).isStr "subagent").map
      fun item => item.getD "arguments" (JSON.obj [])
  | _ => none

/-- The backward scan of print_subagents: walk the window indices in
descending order and each time a message holds a subagent toolCall,
overwrite the arguments found so far (the inner loop stops at the first
matching item of that message, the outer loop keeps scanning). -/
def findCallArgs (messages : List JSON) (i : Nat) : JSON :=
  (descWindow i).foldl
    (fun acc j =>
      match subagentCallIn (messages.getD j JSON.null) with
      | some a => a
      | none => acc)
    (JSON.obj [])

/-- One invocation block of the subagents view. -/
structure SubInvocation where
  mode : JSON
  callArgs : JSON
  results : List JSON

/-- print_subagents from read_session.py, as structured output: one block
per raw message carrying subagent details, unwindowed. -/
def subagentsView (messages : List JSON) : List SubInvocation :=
  (List.range messages.length).filterMap fun i =>
    let entry := messages.getD i JSON.null
    let msg := entry.getD "message" (JSON.obj [])
    match extract_subagent_details msg with
    | none => none
    | some details =>
      some { mode := details.getD "mode" (JSON.str "?")
             callArgs := findCallArgs messages i
             results := subResults details }

/-- The six output modes. -/
inductive Mode where
  | overview | conversation | full | tools | costs | subagents

/-- The report produced for the selected mode. -/
inductive Output where
  | overview (o : OverviewOut)
  | conversation (bs : List ConvBlock)
  | full (bs : List FullBlock)
  | tools (bs : List ToolsBlock)
  | costs (c : CostsOut)
  | subagents (bs : List SubInvocation)

/-- The message-typed records among the valid lines of the file, in file
order. -/
def messageRecords (lines : List RawLine) : List JSON :=
  lines.filterMap fun l =>
    match l with
    | .valid j => if (j.getD "type" JSON.null).isStr "message" then some j else none
    | _ => none

/-- main from read_session.py after the file is read: parse, normalize,
then render the selected view; a parse failure aborts with no report. -/
def run (lines : List RawLine) (mode : Mode) (args : Args) : Except Unit Output :=
  match parse_session lines with
  | .error e => .error e
  | .ok (_metadata, _events, messages) =>
    let turns := extract_turns messages
    .ok <| match mode with
      | .overview => .overview (overviewView turns args)
      | .conversation => .conversation (conversationView turns args)
      | .full => .full (fullView turns args)
      | .tools => .tools (toolsView turns args)
      | .costs => .costs (costsView turns args)
      | .subagents => .subagents (subagentsView messages)

/-- The number of user-role turns in a list, as an integer. -/
def countUsersZ (turns : List Turn) : Int :=
  ((turns.filter fun t => t.role.isStr "user").length : Int)

/-- The window predicate as the specification states it: the turn number
exceeds the offset unless the offset is zero, and does not exceed
offset + limit unless the limit is zero. -/
def specShown (off lim n : Int) : Prop :=
  (off = 0 ∨ off < n) ∧ (lim = 0 ∨ n ≤ off + lim)

/-- A placeholder turn for out-of-range list lookups. -/
def defTurn : Turn :=
  { role := JSON.null, timestamp := JSON.null, texts := [], tool_calls := []
    thinking := [], is_error := JSON.null }

/-- A raw message entry with the given inner message fields. -/
def mkEntry (fields : List (String × JSON)) : JSON :=
  JSON.obj [("type", JSON.str "message"), ("message", JSON.obj fields)]

/-- A user message entry with plain string content. -/
def mkUser (s : String) : JSON :=
  mkEntry [("role", JSON.str "user"), ("content", JSON.str s)]

/-- An assistant message entry with plain string content and a usage
mapping holding the given cost total. -/
def mkAssistant (s : String) (c : ℚ) : JSON :=
  mkEntry [("role", JSON.str "assistant"), ("content", JSON.str s),
    ("usage", JSON.obj [("input", JSON.num 1),
      ("cost", JSON.obj [("total", JSON.num c)])])]

/-- The 501-character result text of the tools-view cap counterexample. -/
def c8str : String :=
  String.mk (List.replicate 501 'x')

/-- A toolResult message entry whose result content is one text item
holding the 501-character text. -/
def c8entry : JSON :=
  mkEntry [("role", JSON.str "toolResult"),
    ("content", JSON.arr [JSON.obj [("type", JSON.str "text"), ("text", JSON.str c8str)]])]

/-- A toolResult content list with one blank text item. -/
def c6content : JSON :=
  JSON.arr [JSON.obj [("type", JSON.str "text"), ("text", JSON.str " ")]]

/-- A toolResult message entry with the blank text item as content. -/
def c6entry : JSON :=
  mkEntry [("role", JSON.str "toolResult"), ("content", c6content)]

/-- An assistant message entry holding one subagent toolCall with the
given arguments. -/
def c7call (a : JSON) : JSON :=
  mkEntry [("role", JSON.str "assistant"),
    ("content", JSON.arr [JSON.obj [("type", JSON.str "toolCall"),
      ("name", JSON.str "subagent"), ("arguments", a)]])]

/-- The arguments of the older subagent call of the backward-scan
counterexample. -/
def c7argsA : JSON := JSON.obj [("chain", JSON.str "planA")]

/-- The arguments of the newer subagent call of the backward-scan
counterexample. -/
def c7argsB : JSON := JSON.obj [("chain", JSON.str "planB")]

/-- A subagent toolResult entry with truthy details and no run results. -/
def c7result : JSON :=
  mkEntry [("role", JSON.str "toolResult"), ("toolName", JSON.str "subagent"),
    ("details", JSON.obj [("mode", JSON.str "chain"), ("results", JSON.arr [])])]

/-- Two subagent calls directly followed by a subagent result: both calls
fall inside the backward-scan window. -/
def c7msgs : List JSON := [c7call c7argsA, c7call c7argsB, c7result]

/-- The turn list of the cost-view counterexample: two user turns, each
followed by an assistant turn carrying a cost total. -/
def c5msgs : List JSON :=
  [mkUser "first", mkAssistant "a" 1, mkUser "second", mkAssistant "b" 2]

/-- A message entry whose inner role is none of user, assistant,
toolResult. -/
def c10entry : JSON :=
  mkEntry [("role", JSON.str "system"), ("content", JSON.str "internal")]

/-- The input lines of the parser witness: a session record, a blank
line, a user message, a model change event and an assistant message. -/
def c1lines : List RawLine :=
  [RawLine.valid (JSON.obj [("type", JSON.str "session"), ("id", JSON.str "S1")]),
   RawLine.blank,
   RawLine.valid (mkUser "hello"),
   RawLine.valid (JSON.obj [("type", JSON.str "model_change"), ("modelId", JSON.str "m")]),
   RawLine.valid (mkAssistant "hi" (1/50))]

section Lemmas

theorem userStep_nonneg (t : Turn) : 0 ≤ userStep t := by
  unfold userStep; split <;> simp

theorem assignNumsFrom_length (n : Int) (ts : List Turn) :
    (assignNumsFrom n ts).length = ts.length := by
  induction ts generalizing n with
  | nil => rfl
  | cons t rest ih => simp [assignNumsFrom, ih]

theorem assignNumsFrom_le (n : Int) (ts : List Turn) :
    ∀ p ∈ assignNumsFrom n ts, n ≤ p.1 := by
  induction ts generalizing n with
  | nil => intro p hp; simp [assignNumsFrom] at hp
  | cons t rest ih =>
    intro p hp
    simp only [assignNumsFrom, List.mem_cons] at hp
    rcases hp with h | h
    · subst h; simpa using userStep_nonneg t
    · have h2 := ih (n + userStep t) p h
      have := userStep_nonneg t
      omega

theorem shown_eq_false_of_skip (off lim n : Int) (h : off ≠ 0 ∧ n ≤ off) :
    shown off lim n = false := by
  unfold shown; rw [if_pos h]

theorem shown_eq_false_of_cut (off lim n : Int) (h1 : lim ≠ 0) (h2 : off + lim < n) :
    shown off lim n = false := by
  unfold shown
  by_cases hskip : off ≠ 0 ∧ n ≤ off
  · rw [if_pos hskip]
  · rw [if_neg hskip, if_pos ⟨h1, h2⟩]

theorem shown_eq_true_iff (off lim n : Int) :
    shown off lim n = true ↔ ¬(off ≠ 0 ∧ n ≤ off) ∧ ¬(lim ≠ 0 ∧ off + lim < n) := by
  unfold shown
  by_cases hskip : off ≠ 0 ∧ n ≤ off
  · rw [if_pos hskip]; simp [hskip]
  · rw [if_neg hskip]
    by_cases hbr : lim ≠ 0 ∧ off + lim < n
    · rw [if_pos hbr]; simp [hskip, hbr]
    · rw [if_neg hbr]; simp [hskip, hbr]

theorem rendererLoop_eq_filter {α : Type} (off lim : Int) (elig : Turn → Bool)
    (emit : Int → Turn → α) (n : Int) (ts : List Turn) :
    rendererLoop off lim elig emit n ts =
      ((assignNumsFrom n ts).filter fun p => elig p.2 && shown off lim p.1).map
        fun p => emit p.1 p.2 := by
  induction ts generalizing n with
  | nil => rfl
  | cons t rest ih =>
    simp only [rendererLoop, assignNumsFrom]
    by_cases he : elig t
    · by_cases hskip : off ≠ 0 ∧ n + userStep t ≤ off
      · have hsh := shown_eq_false_of_skip off lim (n + userStep t) hskip
        simp [he, hskip, hsh, ih]
      · by_cases hbr : lim ≠ 0 ∧ off + lim < n + userStep t
        · have hsh := shown_eq_false_of_cut off lim (n + userStep t) hbr.1 hbr.2
          have hrest :
              (assignNumsFrom (n + userStep t) rest).filter
                (fun p => elig p.2 && shown off lim p.1) = [] := by
            rw [List.filter_eq_nil_iff]
            intro p hp
            have hle := assignNumsFrom_le (n + userStep t) rest p hp
            have hsh2 : shown off lim p.1 = false :=
              shown_eq_false_of_cut off lim p.1 hbr.1 (by omega)
            simp [hsh2]
          simp [he, hskip, hbr, hsh, hrest]
        · have hsh : shown off lim (n + userStep t) = true :=
            (shown_eq_true_iff off lim (n + userStep t)).mpr ⟨hskip, hbr⟩
          simp [he, hskip, hbr, hsh, ih]
    · have hb : (elig t && shown off lim (n + userStep t)) = false := by
        simp [he]
      simp [he, hb, ih]

theorem except_ok_bind {ε α β : Type} (a : α) (f : α → Except ε β) :
    (Except.ok a >>= f : Except ε β) = f a := rfl

theorem except_error_bind {ε α β : Type} (e : ε) (f : α → Except ε β) :
    (Except.error e >>= f : Except ε β) = Except.error e := rfl

theorem countUsersZ_cons (t : Turn) (ts : List Turn) :
    countUsersZ (t :: ts) = userStep t + countUsersZ ts := by
  unfold countUsersZ userStep
  by_cases h : t.role.isStr "user"
  · simp [h]; omega
  · simp [h]

theorem assignNumsFrom_getD (dp : Int × Turn) (ts : List Turn) :
    ∀ (n : Int) (i : Nat), i < ts.length →
      ((assignNumsFrom n ts).getD i dp).1 =
        n + countUsersZ (ts.take i) + userStep (ts.getD i defTurn) := by
  induction ts with
  | nil => intro n i h; simp at h
  | cons t rest ih =>
    intro n i h
    match i with
    | 0 => simp [assignNumsFrom, countUsersZ]
    | i + 1 =>
      have h2 : i < rest.length := by simpa using h
      have := ih (n + userStep t) i h2
      simp only [assignNumsFrom, List.getD_cons_succ, List.take_succ_cons,
        countUsersZ_cons] at *
      omega

theorem foldlM_parseStep_error (lines : List RawLine)
    (h : RawLine.malformed ∈ lines) :
    ∀ st : ParseState, lines.foldlM parseStep st = .error () := by
  induction lines with
  | nil => simp at h
  | cons l rest ih =>
    intro st
    rcases List.mem_cons.mp h with h1 | h1
    · subst h1
      simp [List.foldlM_cons, parseStep, except_error_bind]
    · match l with
      | .blank => simp [List.foldlM_cons, parseStep, except_ok_bind, ih h1]
      | .malformed => simp [List.foldlM_cons, parseStep, except_error_bind]
      | .valid j =>
        simp only [List.foldlM_cons, parseStep]
        split
        · simp [except_ok_bind, ih h1]
        · split
          · simp [except_ok_bind, ih h1]
          · split
            · simp [except_ok_bind, ih h1]
            · simp [except_ok_bind, ih h1]

theorem foldlM_parseStep_messages (lines : List RawLine) :
    ∀ (st st2 : ParseState), lines.foldlM parseStep st = .ok st2 →
      st2.messages = st.messages ++ messageRecords lines := by
  induction lines with
  | nil =>
    intro st st2 h
    simp only [List.foldlM_nil] at h
    cases h
    simp [messageRecords]
  | cons l rest ih =>
    intro st st2 h
    match l with
    | .blank =>
      simp only [List.foldlM_cons, parseStep] at h
      have := ih st st2 (by simpa [except_ok_bind] using h)
      simpa [messageRecords] using this
    | .malformed =>
      simp [List.foldlM_cons, parseStep, except_error_bind] at h
    | .valid j =>
      simp only [List.foldlM_cons, parseStep] at h
      by_cases hs : (j.getD "type" JSON.null).isStr "session"
      · rw [if_pos hs] at h
        have := ih _ st2 (by simpa [except_ok_bind] using h)
        simp only [messageRecords, List.filterMap_cons] at *
        have hm : ¬ (j.getD "type" JSON.null).isStr "message" := by
          intro hc
          unfold JSON.isStr at hs hc
          cases hj : j.getD "type" JSON.null <;> rw [hj] at hs hc <;> simp_all
        simp [hm, this]
      · rw [if_neg hs] at h
        by_cases he : (j.getD "type" JSON.null).isStr "model_change"
            || (j.getD "type" JSON.null).isStr "thinking_level_change"
        · rw [if_pos he] at h
          have := ih _ st2 (by simpa [except_ok_bind] using h)
          have hm : ¬ (j.getD "type" JSON.null).isStr "message" := by
            intro hc
            unfold JSON.isStr at he hc
            cases hj : j.getD "type" JSON.null <;> rw [hj] at he hc <;> simp_all
          simp only [messageRecords, List.filterMap_cons] at *
          simp [hm, this]
        · rw [if_neg he] at h
          by_cases hm : (j.getD "type" JSON.null).isStr "message"
          · rw [if_pos hm] at h
            have := ih _ st2 (by simpa [except_ok_bind] using h)
            simp only [messageRecords, List.filterMap_cons] at *
            simp [hm, this]
          · rw [if_neg hm] at h
            have := ih _ st2 (by simpa [except_ok_bind] using h)
            simp only [messageRecords, List.filterMap_cons] at *
            simp [hm, this]

theorem parse_session_messages (lines : List RawLine) (md : JSON)
    (evts msgs : List JSON) (h : parse_session lines = .ok (md, evts, msgs)) :
    msgs = messageRecords lines := by
  unfold parse_session at h
  cases hf : lines.foldlM parseStep ⟨JSON.obj [], [], []⟩ with
  | error e => rw [hf] at h; simp [Except.map] at h
  | ok st =>
    rw [hf] at h
    simp only [Except.map] at h
    cases h
    simpa using foldlM_parseStep_messages lines _ st hf

theorem rendererLoop_skip {α : Type} (off lim : Int) (elig : Turn → Bool)
    (emit : Int → Turn → α) (t : Turn) (hel : elig t = false) (hst : userStep t = 0) :
    ∀ (l₁ l₂ : List Turn) (n : Int),
      rendererLoop off lim elig emit n (l₁ ++ t :: l₂) =
        rendererLoop off lim elig emit n (l₁ ++ l₂) := by
  intro l₁
  induction l₁ with
  | nil =>
    intro l₂ n
    simp only [List.nil_append, rendererLoop, hel, hst, Bool.false_eq_true, if_false,
      add_zero]
  | cons a l₁ ih =>
    intro l₂ n
    simp only [List.cons_append, rendererLoop]
    by_cases hea : elig a
    · by_cases hskip : off ≠ 0 ∧ n + userStep a ≤ off
      · simp [hea, hskip, ih]
      · by_cases hbr : lim ≠ 0 ∧ off + lim < n + userStep a
        · simp [hea, hskip, hbr]
        · simp [hea, hskip, hbr, ih]
    · simp [hea, ih]

theorem shown_zero_zero (n : Int) : shown 0 0 n = true := by
  unfold shown
  simp

theorem assignNumsFrom_filter_map_snd {α : Type} (q : Turn → Bool) (f : Turn → α)
    (ts : List Turn) : ∀ n : Int,
    ((assignNumsFrom n ts).filter fun p => q p.2).map (fun p => f p.2) =
      (ts.filter q).map f := by
  induction ts with
  | nil => intro n; rfl
  | cons t rest ih =>
    intro n
    by_cases hq : q t
    · simp [assignNumsFrom, hq, ih]
    · simp [assignNumsFrom, hq, ih]

theorem sum_filter_of_zero (q : Turn → Bool) (f : Turn → ℚ) (l : List Turn)
    (h : ∀ t ∈ l, q t = false → f t = 0) :
    (l.map f).sum = ((l.filter q).map f).sum := by
  induction l with
  | nil => rfl
  | cons t rest ih =>
    have ht := h t (List.mem_cons_self t rest)
    have hrest := ih fun u hu => h u (List.mem_cons_of_mem t hu)
    by_cases hq : q t
    · simp [hq, hrest]
    · rw [Bool.not_eq_true] at hq
      simp [hq, hrest, ht hq]

theorem foldl_overwrite_eq_findSome (f : Nat → Option JSON) (d : JSON) (l : List Nat) :
    l.reverse.foldl (fun acc j => match f j with | some a => a | none => acc) d =
      (l.findSome? f).getD d := by
  induction l with
  | nil => rfl
  | cons a l ih =>
    rw [List.reverse_cons, List.foldl_append]
    cases hf : f a
    · simp only [List.foldl_cons, List.foldl_nil, hf]
      rw [List.findSome?_cons, hf, ih]
    · simp only [List.foldl_cons, List.foldl_nil, hf]
      rw [List.findSome?_cons, hf]
      rfl

theorem withUsageTurn_role (e : JSON) :
    (withUsageTurn e).role = roleOfEntry e := by
  unfold withUsageTurn
  split
  · split <;> rfl
  · rfl

theorem turnOfEntry_role (e : JSON) :
    (turnOfEntry e).role = roleOfEntry e := by
  unfold turnOfEntry
  split
  · exact withUsageTurn_role e
  · exact withUsageTurn_role e

theorem turnOfEntry_usage_eq (e : JSON) :
    (turnOfEntry e).usage = (withUsageTurn e).usage := by
  unfold turnOfEntry
  split <;> rfl

theorem turnOfEntry_usage_none (e : JSON)
    (h : (roleOfEntry e).isStr "assistant" = false) :
    (turnOfEntry e).usage = none := by
  rw [turnOfEntry_usage_eq]
  unfold withUsageTurn
  rw [h]
  rfl

theorem baseTurn_usage (e : JSON) : (baseTurn e).usage = none := rfl

theorem turnOfEntry_usage_some (e : JSON) (u : JSON)
    (h : (turnOfEntry e).usage = some u) :
    (roleOfEntry e).isStr "assistant" = true ∧ u.truthy = true := by
  rw [turnOfEntry_usage_eq] at h
  unfold withUsageTurn at h
  by_cases ha : (roleOfEntry e).isStr "assistant"
  · refine ⟨ha, ?_⟩
    rw [if_pos ha] at h
    by_cases htr : ((msgOf e).getD "usage" (JSON.obj [])).truthy
    · rw [if_pos htr] at h
      simp only [Option.some.injEq] at h
      rw [← h]; exact htr
    · rw [if_neg htr, baseTurn_usage] at h
      exact Option.noConfusion h
  · rw [Bool.not_eq_true] at ha
    rw [if_neg (by rw [ha]; exact Bool.false_ne_true), baseTurn_usage] at h
    exact Option.noConfusion h

theorem turnCostTotal_none (t : Turn) (h : t.usage = none) :
    turnCostTotal t = 0 := by
  unfold turnCostTotal
  rw [h]
  rfl

theorem string_length_mk (l : List Char) : (String.mk l).length = l.length := rfl

theorem textTag_eq (item : JSON) :
    (item.getStr "type" "" == "text") = (item.getD "type" JSON.null).isStr "text" := by
  cases item with
  | obj fields =>
    simp only [JSON.getStr, JSON.getD]
    cases hf : fields.reverse.find? (fun p => p.1 == "type") with
    | none => simp only [hf]; rfl
    | some p =>
      cases hp : p.2 <;> simp only [hf, hp] <;> rfl
  | null => rfl
  | bool b => rfl
  | num q => rfl
  | str s => rfl
  | arr items => rfl

theorem generic_vs_toolresult_list (items : List JSON) :
    genericTexts (JSON.arr items) =
      (toolResultTexts (JSON.arr items)).filter fun s => !isBlankStr s := by
  show (items.filterMap fun item =>
      if item.isObj && (item.getStr "type" "" == "text") then
        if !isBlankStr (item.getStr "text" "") then some (item.getStr "text" "") else none
      else none) =
    (items.filterMap fun item =>
      if item.isObj && (item.getD "type" JSON.null).isStr "text" then
        some (item.getStr "text" "")
      else none).filter fun s => !isBlankStr s
  induction items with
  | nil => rfl
  | cons item rest ih =>
    rw [List.filterMap_cons, List.filterMap_cons, textTag_eq, ih]
    by_cases hg : (item.isObj && (item.getD "type" JSON.null).isStr "text") = true
    · by_cases hb : isBlankStr (item.getStr "text" "") = true
      · simp [hg, hb]
      · simp [hg, hb]
    · rw [Bool.not_eq_true] at hg
      simp [hg]

theorem mem_drop_range_ge (i m : Nat) :
    ∀ j ∈ (List.range i).drop m, m ≤ j ∧ j < i := by
  intro j hj
  rcases List.mem_iff_getElem.mp hj with ⟨k, hk, hget⟩
  have hlen : ((List.range i).drop m).length = i - m := by simp
  rw [List.getElem_drop] at hget
  have hmk : m + k < i := by
    have := hk
    rw [hlen] at this
    omega
  rw [List.getElem_range] at hget
  omega

theorem truncate_fits (text : String) (m : Int)
    (h : m ≤ 0 ∨ (text.length : Int) ≤ m) : truncate text m = text := by
  unfold truncate
  rw [if_pos h]

theorem truncate_cut (text : String) (m : Int) (h1 : 0 < m)
    (h2 : m < (text.length : Int)) :
    truncate text m = pyTake text m.toNat ++ truncMarker text.length ∧
    ((pyTake text m.toNat).length : Int) = m := by
  have hn : ¬ (m ≤ 0 ∨ (text.length : Int) ≤ m) := by omega
  refine ⟨by unfold truncate; rw [if_neg hn], ?_⟩
  have hlen : (pyTake text m.toNat).length = min m.toNat text.data.length := by
    rw [pyTake, string_length_mk, List.length_take]
  have hdl : text.data.length = text.length := rfl
  rw [hlen]
  omega

theorem getD_isStr_irrelevant (j : JSON) (key : String) (d1 d2 : JSON) (s : String)
    (h1 : d1.isStr s = false) (h2 : d2.isStr s = false) :
    (j.getD key d1).isStr s = (j.getD key d2).isStr s := by
  cases j with
  | obj fields =>
    unfold JSON.getD
    cases hf : fields.reverse.find? (fun p => p.1 == key) with
    | none => simp only [hf]; rw [h1, h2]
    | some p => simp only [hf]
  | null => show d1.isStr s = d2.isStr s; rw [h1, h2]
  | bool b => show d1.isStr s = d2.isStr s; rw [h1, h2]
  | num q => show d1.isStr s = d2.isStr s; rw [h1, h2]
  | str t => show d1.isStr s = d2.isStr s; rw [h1, h2]
  | arr items => show d1.isStr s = d2.isStr s; rw [h1, h2]

end Lemmas

/-- C1: for every well-formed session file (one whose parse pass
succeeds), one turn is produced per message-typed record: the turn list
is exactly the list of message-typed records in file order, each mapped
through the per-record normalizer, so the number of turns equals the
count of message-typed records and the order of turns equals their file
order; records of other or missing type contribute no turn. -/
theorem c1_turns_one_per_message (lines : List RawLine) (md : JSON)
    (evts msgs : List JSON) (h : parse_session lines = .ok (md, evts, msgs)) :
    extract_turns msgs = (messageRecords lines).map turnOfEntry ∧
    (extract_turns msgs).length = (messageRecords lines).length := by
  have hm := parse_session_messages lines md evts msgs h
  subst hm
  exact ⟨rfl, by simp [extract_turns]⟩

/-- Witness for C1 at a concrete five-line file holding a session record,
a blank line, a user message, an event and an assistant message. -/
theorem c1_turns_one_per_message_witness :
    extract_turns [mkUser "hello", mkAssistant "hi" (1/50)] =
      (messageRecords c1lines).map turnOfEntry ∧
    (extract_turns [mkUser "hello", mkAssistant "hi" (1/50)]).length =
      (messageRecords c1lines).length :=
  c1_turns_one_per_message c1lines
    (JSON.obj [("type", JSON.str "session"), ("id", JSON.str "S1")])
    [JSON.obj [("type", JSON.str "model_change"), ("modelId", JSON.str "m")]]
    [mkUser "hello", mkAssistant "hi" (1/50)] rfl

/-- C4 counterexample: the truncate operation is not idempotent; cutting
an already-truncated text again with the same limit cuts it further,
because the first cut produced a text longer than the limit. -/
theorem c4_not_idempotent :
    truncate (truncate "0123456789" 5) 5 ≠ truncate "0123456789" 5 := by
  decide

/-- C4 amended: truncate is the identity on any text whose length is at
or under the limit (and when the limit is nonpositive, meaning
unlimited); for text longer than a positive limit it returns exactly
limit characters of payload followed by the fixed marker stating the
original total character count.  It is not idempotent on texts it
actually cuts. -/
theorem c4_truncate_amended (text : String) (m : Int) :
    ((m ≤ 0 ∨ (text.length : Int) ≤ m) → truncate text m = text) ∧
    (0 < m → m < (text.length : Int) →
      truncate text m = pyTake text m.toNat ++ truncMarker text.length ∧
      ((pyTake text m.toNat).length : Int) = m) := by
  exact ⟨truncate_fits text m, truncate_cut text m⟩

/-- Witness for C4 at a fitting text and at a cut text. -/
theorem c4_truncate_amended_witness :
    truncate "abc" 5 = "abc" ∧
    truncate "abcdef" 3 = pyTake "abcdef" (3 : Int).toNat ++ truncMarker "abcdef".length :=
  ⟨(c4_truncate_amended "abc" 5).1 (by decide),
   ((c4_truncate_amended "abcdef" 3).2 (by decide) (by decide)).1⟩

/-- C6 counterexample: a toolResult content list holding one text item
whose text is blank yields one (blank) segment under the toolResult
extraction, while the generic rule yields no segment, so the replacement
does not follow the same extraction rule in the list case. -/
theorem c6_blank_segment_kept :
    (turnOfEntry c6entry).texts = [" "] ∧ genericTexts c6content = [] ∧
    ([" "] : List String) ≠ [] := by
  refine ⟨rfl, rfl, by simp⟩

/-- C6 amended: for a toolResult turn the text-segment list is fully
replaced (never merged) by the extraction from the result content; the
string case follows the generic rule exactly, while in the list case
every text-tagged item yields a segment regardless of blankness (the
generic rule is the toolResult rule with blank segments filtered out). -/
theorem c6_toolresult_replacement (entry : JSON)
    (h : (roleOfEntry entry).isStr "toolResult" = true) :
    (turnOfEntry entry).texts =
      toolResultTexts ((msgOf entry).getD "content" (JSON.str "")) ∧
    (∀ s : String, toolResultTexts (JSON.str s) = genericTexts (JSON.str s)) ∧
    (∀ items : List JSON, genericTexts (JSON.arr items) =
      (toolResultTexts (JSON.arr items)).filter fun s => !isBlankStr s) := by
  refine ⟨?_, fun s => rfl, fun items => generic_vs_toolresult_list items⟩
  unfold turnOfEntry
  rw [if_pos h]

/-- Witness for C6 at the concrete blank-text toolResult entry. -/
theorem c6_toolresult_replacement_witness :
    (turnOfEntry c6entry).texts =
      toolResultTexts ((msgOf c6entry).getD "content" (JSON.str "")) ∧
    (∀ s : String, toolResultTexts (JSON.str s) = genericTexts (JSON.str s)) ∧
    (∀ items : List JSON, genericTexts (JSON.arr items) =
      (toolResultTexts (JSON.arr items)).filter fun s => !isBlankStr s) :=
  c6_toolresult_replacement c6entry rfl

/-- C7 counterexample: with two subagent toolCalls inside the backward
window, the subagents view recovers the arguments of the OLDER call (the
inner loop stops at the first matching content item, but the outer scan
keeps walking backward and overwrites), not the first match found
scanning backward as the claim states. -/
theorem c7_oldest_match_wins :
    subagentsView c7msgs = [⟨JSON.str "chain", c7argsA, []⟩] ∧ c7argsA ≠ c7argsB := by
  refine ⟨rfl, ?_⟩
  intro h
  simp [c7argsA, c7argsB] at h

/-- C7 amended: the triggering arguments are recovered by scanning at
most the 4 immediately preceding raw messages; among the window messages
holding a subagent toolCall, the OLDEST one (the farthest back in the
window) supplies the arguments, taking the first matching content item of
that message; when no match exists within the window the arguments are
empty. -/
theorem c7_backward_scan (messages : List JSON) (i : Nat) :
    findCallArgs messages i =
      (((List.range i).drop (i - 4)).findSome? fun j =>
        subagentCallIn (messages.getD j JSON.null)).getD (JSON.obj []) ∧
    descWindow i = ((List.range i).drop (i - 4)).reverse ∧
    (descWindow i).length ≤ 4 ∧
    (∀ j ∈ descWindow i, i - 4 ≤ j ∧ j < i) := by
  refine ⟨?_, rfl, ?_, ?_⟩
  · unfold findCallArgs descWindow
    exact foldl_overwrite_eq_findSome
      (fun j => subagentCallIn (messages.getD j JSON.null)) (JSON.obj [])
      ((List.range i).drop (i - 4))
  · unfold descWindow
    simp only [List.length_reverse, List.length_drop, List.length_range]
    omega
  · intro j hj
    unfold descWindow at hj
    rw [List.mem_reverse] at hj
    exact mem_drop_range_ge i (i - 4) j hj

/-- C9: if any non-blank line of the session file is not valid JSON, the
whole invocation aborts during the parse pass, so no report output at all
is produced, for every output mode and every argument setting. -/
theorem c9_malformed_aborts (lines : List RawLine) (h : RawLine.malformed ∈ lines)
    (mode : Mode) (args : Args) : run lines mode args = .error () := by
  have hp : parse_session lines = .error () := by
    unfold parse_session
    rw [foldlM_parseStep_error lines h ⟨JSON.obj [], [], []⟩]
    rfl
  unfold run
  rw [hp]

/-- Witness for C9: a one-line file whose line is malformed aborts in
overview mode. -/
theorem c9_malformed_aborts_witness :
    run [RawLine.malformed] Mode.overview ⟨0, 0, 2000⟩ = .error () :=
  c9_malformed_aborts [RawLine.malformed] (by simp) Mode.overview ⟨0, 0, 2000⟩

set_option maxRecDepth 4000 in
/-- C8 counterexample: with the configured per-content maximum set to 0
(unlimited), the cap passed to truncate is min 0 500 = 0, so a
501-character non-subagent toolResult payload is displayed in full by the
tools view; the displayed payload is not capped at 500 characters for
every max-content setting. -/
theorem c8_unlimited_uncapped :
    toolsView (extract_turns [c8entry]) ⟨0, 0, 0⟩ = [ToolsBlock.result false c8str] ∧
    500 < c8str.length := by
  refine ⟨rfl, ?_⟩
  decide

/-- C8 amended: for every positive configured maximum, the tools view
displays a non-subagent toolResult as the joined text cut at
min max-content 500, so the displayed payload never exceeds 500
characters; a maximum at or under 0 disables the cap entirely. -/
theorem c8_tools_result_cap (mc : Int) (t : Turn) (h : 0 < mc)
    (hr : t.role.isStr "assistant" = false) (hd : t.subagent_details = none) :
    emitTools mc 0 t =
      .result t.is_error.truthy (truncate (joinSp t.texts) (min mc 500)) ∧
    ((truncate (joinSp t.texts) (min mc 500) = joinSp t.texts ∧
        ((joinSp t.texts).length : Int) ≤ 500) ∨
      (truncate (joinSp t.texts) (min mc 500) =
          pyTake (joinSp t.texts) (min mc 500).toNat ++
            truncMarker (joinSp t.texts).length ∧
        ((pyTake (joinSp t.texts) (min mc 500).toNat).length : Int) = min mc 500 ∧
        min mc 500 ≤ 500)) := by
  constructor
  · unfold emitTools
    rw [hr]
    simp only [Bool.false_eq_true, if_false, hd]
  · by_cases hfit : ((joinSp t.texts).length : Int) ≤ min mc 500
    · left
      refine ⟨truncate_fits _ _ (Or.inr hfit), ?_⟩
      have : (0 : Int) < min mc 500 := by omega
      omega
    · right
      have h1 : (0 : Int) < min mc 500 := by omega
      have h2 : min mc 500 < ((joinSp t.texts).length : Int) := by omega
      have := truncate_cut (joinSp t.texts) (min mc 500) h1 h2
      exact ⟨this.1, this.2, by omega⟩

/-- Witness for C8 at a concrete toolResult turn and maximum 2000. -/
theorem c8_tools_result_cap_witness :
    emitTools 2000 0 (turnOfEntry c8entry) =
      .result (turnOfEntry c8entry).is_error.truthy
        (truncate (joinSp (turnOfEntry c8entry).texts) (min 2000 500)) ∧
    ((truncate (joinSp (turnOfEntry c8entry).texts) (min 2000 500) =
          joinSp (turnOfEntry c8entry).texts ∧
        ((joinSp (turnOfEntry c8entry).texts).length : Int) ≤ 500) ∨
      (truncate (joinSp (turnOfEntry c8entry).texts) (min 2000 500) =
          pyTake (joinSp (turnOfEntry c8entry).texts) ((min 2000 500 : Int)).toNat ++
            truncMarker (joinSp (turnOfEntry c8entry).texts).length ∧
        ((pyTake (joinSp (turnOfEntry c8entry).texts)
            ((min 2000 500 : Int)).toNat).length : Int) = min 2000 500 ∧
        (min 2000 500 : Int) ≤ 500)) :=
  c8_tools_result_cap 2000 (turnOfEntry c8entry) (by decide) rfl rfl

/-- C2: the 1-based user-turn counter used for windowing is the number
assignNums pairs with each turn, and the overview and tools renderers
window exactly by it (their output is the filter of assignNums under the
shared window test); the counter increments exactly once per user-role
turn and never for any other role, each turn is tested under the count of
user turns up to and including itself, so an assistant or toolResult turn
carries the number of the nearest preceding user turn, and 0 when no user
turn precedes it. -/
theorem c2_user_turn_counter (turns : List Turn) (args : Args) (i : Nat)
    (h : i < turns.length) :
    ((overviewView turns args).summary =
      ((assignNums turns).filter fun p =>
        eligOverview p.2 && shown args.offset args.limit p.1).map
        fun p => emitOverview p.1 p.2) ∧
    (toolsView turns args =
      ((assignNums turns).filter fun p =>
        eligTools p.2 && shown args.offset args.limit p.1).map
        fun p => emitTools args.max_content p.1 p.2) ∧
    (userStep (turns.getD i defTurn) =
      if (turns.getD i defTurn).role.isStr "user" then 1 else 0) ∧
    (((assignNums turns).getD i (0, defTurn)).1 =
      countUsersZ (turns.take i) + userStep (turns.getD i defTurn)) ∧
    ((turns.getD i defTurn).role.isStr "user" = false →
      ((assignNums turns).getD i (0, defTurn)).1 = countUsersZ (turns.take i)) ∧
    ((∀ t ∈ turns.take i, t.role.isStr "user" = false) →
      (turns.getD i defTurn).role.isStr "user" = false →
      ((assignNums turns).getD i (0, defTurn)).1 = 0) := by
  have h4 : ((assignNums turns).getD i (0, defTurn)).1 =
      0 + countUsersZ (turns.take i) + userStep (turns.getD i defTurn) :=
    assignNumsFrom_getD (0, defTurn) turns 0 i h
  refine ⟨?_, ?_, rfl, by omega, ?_, ?_⟩
  · exact rendererLoop_eq_filter args.offset args.limit eligOverview emitOverview 0 turns
  · exact rendererLoop_eq_filter args.offset args.limit eligTools
      (emitTools args.max_content) 0 turns
  · intro hnu
    have hstep : userStep (turns.getD i defTurn) = 0 := by
      unfold userStep
      rw [hnu]
      rfl
    omega
  · intro hall hnu
    have hstep : userStep (turns.getD i defTurn) = 0 := by
      unfold userStep
      rw [hnu]
      rfl
    have hnil : (turns.take i).filter (fun t => t.role.isStr "user") = [] := by
      rw [List.filter_eq_nil_iff]
      intro t ht
      rw [hall t ht]
      exact Bool.false_ne_true
    have hcz : countUsersZ (turns.take i) = 0 := by
      unfold countUsersZ
      rw [hnil]
      rfl
    omega

/-- Witness for C2 at a two-turn list (one user turn, one assistant turn)
and index 1. -/
theorem c2_user_turn_counter_witness :
    ((overviewView (extract_turns [mkUser "hello", mkAssistant "hi" 1]) ⟨0, 0, 2000⟩).summary =
      ((assignNums (extract_turns [mkUser "hello", mkAssistant "hi" 1])).filter fun p =>
        eligOverview p.2 && shown 0 0 p.1).map
        fun p => emitOverview p.1 p.2) ∧
    (toolsView (extract_turns [mkUser "hello", mkAssistant "hi" 1]) ⟨0, 0, 2000⟩ =
      ((assignNums (extract_turns [mkUser "hello", mkAssistant "hi" 1])).filter fun p =>
        eligTools p.2 && shown 0 0 p.1).map
        fun p => emitTools 2000 p.1 p.2) ∧
    (userStep ((extract_turns [mkUser "hello", mkAssistant "hi" 1]).getD 1 defTurn) =
      if ((extract_turns [mkUser "hello", mkAssistant "hi" 1]).getD 1
          defTurn).role.isStr "user" then 1 else 0) ∧
    (((assignNums (extract_turns [mkUser "hello", mkAssistant "hi" 1])).getD 1
        (0, defTurn)).1 =
      countUsersZ ((extract_turns [mkUser "hello", mkAssistant "hi" 1]).take 1) +
        userStep ((extract_turns [mkUser "hello", mkAssistant "hi" 1]).getD 1 defTurn)) ∧
    (((extract_turns [mkUser "hello", mkAssistant "hi" 1]).getD 1
        defTurn).role.isStr "user" = false →
      ((assignNums (extract_turns [mkUser "hello", mkAssistant "hi" 1])).getD 1
        (0, defTurn)).1 =
        countUsersZ ((extract_turns [mkUser "hello", mkAssistant "hi" 1]).take 1)) ∧
    ((∀ t ∈ (extract_turns [mkUser "hello", mkAssistant "hi" 1]).take 1,
        t.role.isStr "user" = false) →
      ((extract_turns [mkUser "hello", mkAssistant "hi" 1]).getD 1
        defTurn).role.isStr "user" = false →
      ((assignNums (extract_turns [mkUser "hello", mkAssistant "hi" 1])).getD 1
        (0, defTurn)).1 = 0) :=
  c2_user_turn_counter (extract_turns [mkUser "hello", mkAssistant "hi" 1])
    ⟨0, 0, 2000⟩ 1 (by decide)

/-- C3: the window test every renderer applies is equivalent to the
predicate of the specification (the turn number exceeds the offset unless
the offset is 0, and is at most offset + limit unless the limit is 0),
and each windowed renderer displays exactly the turns it is eligible to
display whose number passes that test: each view equals the filter of
assignNums under the identical shared test. -/
theorem c3_window_shared (args : Args) (turns : List Turn) :
    (∀ n : Int, shown args.offset args.limit n = true ↔
      specShown args.offset args.limit n) ∧
    ((overviewView turns args).summary =
      ((assignNums turns).filter fun p =>
        eligOverview p.2 && shown args.offset args.limit p.1).map
        fun p => emitOverview p.1 p.2) ∧
    (conversationView turns args =
      ((assignNums turns).filter fun p =>
        eligConv p.2 && shown args.offset args.limit p.1).map
        fun p => emitConv args.max_content p.1 p.2) ∧
    (fullView turns args =
      ((assignNums turns).filter fun p =>
        eligFull p.2 && shown args.offset args.limit p.1).map
        fun p => emitFull args.max_content p.1 p.2) ∧
    (toolsView turns args =
      ((assignNums turns).filter fun p =>
        eligTools p.2 && shown args.offset args.limit p.1).map
        fun p => emitTools args.max_content p.1 p.2) ∧
    ((costsView turns args).rows =
      ((assignNums turns).filter fun p =>
        eligCosts p.2 && shown args.offset args.limit p.1).map
        fun p => turnCostTotal p.2) := by
  refine ⟨?_, ?_, ?_, ?_, ?_, ?_⟩
  · intro n
    rw [shown_eq_true_iff]
    unfold specShown
    constructor
    · intro hx
      omega
    · intro hx
      omega
  · exact rendererLoop_eq_filter args.offset args.limit eligOverview emitOverview 0 turns
  · exact rendererLoop_eq_filter args.offset args.limit eligConv
      (emitConv args.max_content) 0 turns
  · exact rendererLoop_eq_filter args.offset args.limit eligFull
      (emitFull args.max_content) 0 turns
  · exact rendererLoop_eq_filter args.offset args.limit eligTools
      (emitTools args.max_content) 0 turns
  · exact rendererLoop_eq_filter args.offset args.limit eligCosts
      (fun _ t => turnCostTotal t) 0 turns

/-- C5 counterexample: parsing two user turns each followed by a costed
assistant turn and rendering with offset 1, the overview aggregate
session cost is 3 while the costs view session total (and its printed
grand total) is 2, because the costs view accumulates only windowed rows;
the two views do not agree for every offset and limit setting. -/
theorem c5_window_changes_total :
    (overviewView (extract_turns c5msgs) ⟨1, 0, 2000⟩).sessionCost = 3 ∧
    (costsView (extract_turns c5msgs) ⟨1, 0, 2000⟩).sessionTotal = 2 ∧
    (costsView (extract_turns c5msgs) ⟨1, 0, 2000⟩).grandTotal = 2 ∧
    (3 : ℚ) ≠ 2 := by
  have h1 : (overviewView (extract_turns c5msgs) ⟨1, 0, 2000⟩).sessionCost
      = ([0, 1, 0, 2] : List ℚ).sum := rfl
  have h2 : (costsView (extract_turns c5msgs) ⟨1, 0, 2000⟩).sessionTotal
      = ([2] : List ℚ).sum := rfl
  have h3 : (costsView (extract_turns c5msgs) ⟨1, 0, 2000⟩).grandTotal
      = ([2] : List ℚ).sum + ([] : List ℚ).sum := rfl
  refine ⟨?_, ?_, ?_, by norm_num⟩
  · rw [h1]
    norm_num [List.sum_cons, List.sum_nil]
  · rw [h2]
    norm_num [List.sum_cons, List.sum_nil]
  · rw [h3]
    norm_num [List.sum_cons, List.sum_nil]

/-- C5 amended: the overview aggregate session cost equals the sum over
assistant turns of the usage cost total field, and when no windowing is
in force (offset 0 and limit 0) the costs view session total equals the
overview aggregate, each computed independently; under windowing the
costs view accumulates only the windowed assistant rows. -/
theorem c5_totals_agree_unwindowed (messages : List JSON) (args : Args)
    (hoff : args.offset = 0) (hlim : args.limit = 0) :
    (overviewView (extract_turns messages) args).sessionCost =
      (((extract_turns messages).filter fun t => t.role.isStr "assistant").map
        turnCostTotal).sum ∧
    (costsView (extract_turns messages) args).sessionTotal =
      (overviewView (extract_turns messages) args).sessionCost := by
  have hzero : ∀ t ∈ extract_turns messages, t.role.isStr "assistant" = false →
      turnCostTotal t = 0 := by
    intro t ht hra
    unfold extract_turns at ht
    rcases List.mem_map.mp ht with ⟨e, _he, rfl⟩
    rw [turnOfEntry_role] at hra
    exact turnCostTotal_none _ (turnOfEntry_usage_none e hra)
  have hzero2 : ∀ t ∈ extract_turns messages, eligCosts t = false →
      turnCostTotal t = 0 := by
    intro t ht hf
    unfold extract_turns at ht
    rcases List.mem_map.mp ht with ⟨e, _he, rfl⟩
    cases hu : (turnOfEntry e).usage with
    | none => exact turnCostTotal_none _ hu
    | some u =>
      obtain ⟨hra, htr⟩ := turnOfEntry_usage_some e u hu
      have htrue : eligCosts (turnOfEntry e) = true := by
        unfold eligCosts
        rw [turnOfEntry_role, hra, hu]
        simpa using htr
      rw [hf] at htrue
      exact absurd htrue Bool.false_ne_true
  have hover : (overviewView (extract_turns messages) args).sessionCost =
      ((extract_turns messages).map turnCostTotal).sum := rfl
  constructor
  · rw [hover]
    exact sum_filter_of_zero _ _ _ hzero
  · have hr1 : (costsView (extract_turns messages) args).rows =
        ((assignNumsFrom 0 (extract_turns messages)).filter fun p =>
          eligCosts p.2 && shown args.offset args.limit p.1).map
          fun p => turnCostTotal p.2 :=
      rendererLoop_eq_filter args.offset args.limit eligCosts
        (fun _ t => turnCostTotal t) 0 (extract_turns messages)
    have hrows : (costsView (extract_turns messages) args).rows =
        ((extract_turns messages).filter eligCosts).map turnCostTotal := by
      rw [hr1, hoff, hlim]
      have heq : (fun p : Int × Turn => eligCosts p.2 && shown 0 0 p.1) =
          fun p : Int × Turn => eligCosts p.2 := by
        funext p
        rw [shown_zero_zero, Bool.and_true]
      rw [heq]
      exact assignNumsFrom_filter_map_snd eligCosts turnCostTotal _ 0
    have hsum : (costsView (extract_turns messages) args).sessionTotal =
        ((costsView (extract_turns messages) args).rows).sum := rfl
    rw [hsum, hrows, hover]
    exact (sum_filter_of_zero _ _ _ hzero2).symm

/-- Witness for C5 at the concrete four-message session with no
windowing. -/
theorem c5_totals_agree_unwindowed_witness :
    (overviewView (extract_turns c5msgs) ⟨0, 0, 2000⟩).sessionCost =
      (((extract_turns c5msgs).filter fun t => t.role.isStr "assistant").map
        turnCostTotal).sum ∧
    (costsView (extract_turns c5msgs) ⟨0, 0, 2000⟩).sessionTotal =
      (overviewView (extract_turns c5msgs) ⟨0, 0, 2000⟩).sessionCost :=
  c5_totals_agree_unwindowed c5msgs ⟨0, 0, 2000⟩ rfl rfl

/-- C10: a message record whose inner role is none of user, assistant,
toolResult (including a missing role) still yields a turn counted in the
overview total turn count, but no view emits a block for it (inserting it
anywhere leaves every view output unchanged), it never increments the
user-turn counter, and the subagents view ignores it. -/
theorem c10_other_roles_silent (e : JSON) (l1 l2 : List JSON) (args : Args)
    (hu : (roleOfEntry e).isStr "user" = false)
    (ha : (roleOfEntry e).isStr "assistant" = false)
    (hr : (roleOfEntry e).isStr "toolResult" = false) :
    (extract_turns (l1 ++ e :: l2)).length = (extract_turns (l1 ++ l2)).length + 1 ∧
    (overviewView (extract_turns (l1 ++ e :: l2)) args).totalTurns =
      (l1 ++ e :: l2).length ∧
    userStep (turnOfEntry e) = 0 ∧
    (overviewView (extract_turns (l1 ++ e :: l2)) args).summary =
      (overviewView (extract_turns (l1 ++ l2)) args).summary ∧
    conversationView (extract_turns (l1 ++ e :: l2)) args =
      conversationView (extract_turns (l1 ++ l2)) args ∧
    fullView (extract_turns (l1 ++ e :: l2)) args =
      fullView (extract_turns (l1 ++ l2)) args ∧
    toolsView (extract_turns (l1 ++ e :: l2)) args =
      toolsView (extract_turns (l1 ++ l2)) args ∧
    (costsView (extract_turns (l1 ++ e :: l2)) args).rows =
      (costsView (extract_turns (l1 ++ l2)) args).rows ∧
    extract_subagent_details (msgOf e) = none := by
  have hrole := turnOfEntry_role e
  have hst : userStep (turnOfEntry e) = 0 := by
    unfold userStep
    rw [hrole, hu]
    rfl
  have happ1 : extract_turns (l1 ++ e :: l2) =
      l1.map turnOfEntry ++ turnOfEntry e :: l2.map turnOfEntry := by
    unfold extract_turns
    rw [List.map_append, List.map_cons]
  have happ2 : extract_turns (l1 ++ l2) =
      l1.map turnOfEntry ++ l2.map turnOfEntry := by
    unfold extract_turns
    rw [List.map_append]
  have key : ∀ {α : Type} (elig : Turn → Bool) (emit : Int → Turn → α),
      elig (turnOfEntry e) = false →
      rendererLoop args.offset args.limit elig emit 0 (extract_turns (l1 ++ e :: l2)) =
        rendererLoop args.offset args.limit elig emit 0 (extract_turns (l1 ++ l2)) := by
    intro α elig emit hel
    rw [happ1, happ2]
    exact rendererLoop_skip args.offset args.limit elig emit (turnOfEntry e) hel hst
      (l1.map turnOfEntry) (l2.map turnOfEntry) 0
  refine ⟨?_, ?_, hst, ?_, ?_, ?_, ?_, ?_, ?_⟩
  · rw [happ1, happ2]
    simp
    omega
  · show (extract_turns (l1 ++ e :: l2)).length = (l1 ++ e :: l2).length
    unfold extract_turns
    simp
  · exact key eligOverview emitOverview (by simp [eligOverview, hrole, hu, ha, hr])
  · exact key eligConv (emitConv args.max_content)
      (by simp [eligConv, hrole, hu, ha, hr])
  · exact key eligFull (emitFull args.max_content)
      (by simp [eligFull, hrole, hu, ha, hr])
  · exact key eligTools (emitTools args.max_content)
      (by simp [eligTools, hrole, hu, ha, hr])
  · exact key eligCosts (fun _ t => turnCostTotal t)
      (by simp [eligCosts, hrole, ha])
  · have hnull : ((msgOf e).getD "role" JSON.null).isStr "toolResult" = false := by
      rw [getD_isStr_irrelevant (msgOf e) "role" JSON.null (JSON.str "") "toolResult"
        rfl rfl]
      exact hr
    unfold extract_subagent_details
    rw [hnull]
    rfl

/-- Witness for C10 at a concrete system-role message entry. -/
theorem c10_other_roles_silent_witness :
    (extract_turns ([] ++ c10entry :: [])).length =
      (extract_turns ([] ++ [])).length + 1 ∧
    (overviewView (extract_turns ([] ++ c10entry :: [])) ⟨0, 0, 2000⟩).totalTurns =
      ([] ++ c10entry :: []).length ∧
    userStep (turnOfEntry c10entry) = 0 ∧
    (overviewView (extract_turns ([] ++ c10entry :: [])) ⟨0, 0, 2000⟩).summary =
      (overviewView (extract_turns ([] ++ [])) ⟨0, 0, 2000⟩).summary ∧
    conversationView (extract_turns ([] ++ c10entry :: [])) ⟨0, 0, 2000⟩ =
      conversationView (extract_turns ([] ++ [])) ⟨0, 0, 2000⟩ ∧
    fullView (extract_turns ([] ++ c10entry :: [])) ⟨0, 0, 2000⟩ =
      fullView (extract_turns ([] ++ [])) ⟨0, 0, 2000⟩ ∧
    toolsView (extract_turns ([] ++ c10entry :: [])) ⟨0, 0, 2000⟩ =
      toolsView (extract_turns ([] ++ [])) ⟨0, 0, 2000⟩ ∧
    (costsView (extract_turns ([] ++ c10entry :: [])) ⟨0, 0, 2000⟩).rows =
      (costsView (extract_turns ([] ++ [])) ⟨0, 0, 2000⟩).rows ∧
    extract_subagent_details (msgOf c10entry) = none :=
  c10_other_roles_silent c10entry [] [] ⟨0, 0, 2000⟩ rfl rfl rfl
